import Mathlib

/-!
Verification development for the genome-manager registry
(`genome_manager/genome_manager.py`).

The Python source is shallowly embedded: Python `dict`s (which preserve
insertion order) become association lists `List (String × α)` with
first-match lookup and replace-in-place / append-if-absent update;
POSIX path strings become `List Char`; fallible code returns `Except Err`;
filesystem effects are threaded as explicit state, with oracles (`Bool`
flags or outcome functions) standing for the success or failure of each
I/O call.  `pathlib.Path` normalisation is not modelled: paths are kept
as the raw POSIX strings the code manipulates.
-/

set_option autoImplicit false

namespace GenomeManager

/-- Characters of a POSIX path (Python `str` used as a path). -/
abbrev PathC := List Char

/-- Errors raised by the Python code, collapsed to the identities the
claims need to distinguish. -/
inductive Err where
  | fileNotFound (p : PathC)
  | fileExists
  | stopIteration
  | valueError (msg : String)
  | keyError
  | indexError
  | duplicateGenome
  | duplicateVersion
  | copyError
  | writeError (nm : String)
  | mountWriteError
  | rmdirError
  deriving DecidableEq, Repr

/-- First-match lookup in an insertion-ordered dict, `d[k]` on success. -/
def lookupA {α : Type} : List (String × α) → String → Option α
  | [], _ => none
  | (k, v) :: rest, key => if k = key then some v else lookupA rest key

/-- Python `d[k] = v`: replace the value in place if the key exists,
otherwise append the new binding (dicts preserve insertion order). -/
def setA {α : Type} : List (String × α) → String → α → List (String × α)
  | [], key, v => [(key, v)]
  | (k, w) :: rest, key, v =>
    if k = key then (k, v) :: rest else (k, w) :: setA rest key v

/-- Python `d.pop(k, None)`: drop the first binding of the key, if any. -/
def removeA {α : Type} : List (String × α) → String → List (String × α)
  | [], _ => []
  | (k, w) :: rest, key => if k = key then rest else (k, w) :: removeA rest key

theorem lookupA_setA_self {α : Type} (m : List (String × α)) (k : String) (v : α) :
    lookupA (setA m k v) k = some v := by
  induction m with
  | nil => simp [setA, lookupA]
  | cons hd tl ih =>
    obtain ⟨k', w⟩ := hd
    by_cases h : k' = k <;> simp [setA, lookupA, h, ih]

theorem lookupA_setA_ne {α : Type} (m : List (String × α)) (k k' : String) (v : α)
    (h : k' ≠ k) : lookupA (setA m k v) k' = lookupA m k' := by
  induction m with
  | nil => simp [setA, lookupA, fun hh => h hh.symm ∘ Eq.symm, h.symm]
  | cons hd tl ih =>
    obtain ⟨k0, w⟩ := hd
    by_cases h0 : k0 = k
    · subst h0
      simp [setA, lookupA, h.symm]
    · simp [setA, lookupA, h0, ih]

theorem setA_keys_of_mem {α : Type} (m : List (String × α)) (k : String) (v : α)
    (h : k ∈ m.map Prod.fst) : (setA m k v).map Prod.fst = m.map Prod.fst := by
  induction m with
  | nil => simp at h
  | cons hd tl ih =>
    obtain ⟨k0, w⟩ := hd
    by_cases h0 : k0 = k
    · simp [setA, h0]
    · simp only [List.map_cons, List.mem_cons] at h
      rcases h with h | h
      · exact absurd h.symm h0
      · simp [setA, h0, ih h]

theorem setA_nodup_keys {α : Type} (m : List (String × α)) (k : String) (v : α)
    (h : (m.map Prod.fst).Nodup) : ((setA m k v).map Prod.fst).Nodup := by
  induction m with
  | nil => simp [setA]
  | cons hd tl ih =>
    obtain ⟨k0, w⟩ := hd
    simp only [List.map_cons, List.nodup_cons] at h
    by_cases h0 : k0 = k
    · simpa [setA, h0, List.nodup_cons] using h
    · have hk0 : k0 ∉ (setA tl k v).map Prod.fst := by
        intro hmem
        by_cases htl : k ∈ tl.map Prod.fst
        · rw [setA_keys_of_mem tl k v htl] at hmem
          exact h.1 hmem
        · -- key absent: setA appends at the end
          have happ : (setA tl k v).map Prod.fst = tl.map Prod.fst ++ [k] := by
            clear hmem ih h
            induction tl with
            | nil => simp [setA]
            | cons hd2 tl2 ih2 =>
              obtain ⟨k2, w2⟩ := hd2
              simp only [List.map_cons, List.mem_cons, not_or] at htl
              have hne : k2 ≠ k := fun hh => htl.1 hh.symm
              simp [setA, hne, ih2 htl.2]
          rw [happ] at hmem
          rcases List.mem_append.mp hmem with hmem | hmem
          · exact h.1 hmem
          · exact h0 (List.mem_singleton.mp hmem)
      rw [show setA ((k0, w) :: tl) k v = (k0, w) :: setA tl k v from by simp [setA, h0]]
      simp only [List.map_cons, List.nodup_cons]
      exact ⟨hk0, ih h.2⟩

/-! ### Python `str.split` on a non-empty separator

`add_new_system_path` / `add_new_basepath` evaluate
`path.split(f'{split_keyword}/')` and unpack the result into exactly two
names, so we embed CPython's `str.split(sep)` semantics: scan left to
right, cut at each leftmost non-overlapping occurrence of `sep`. -/

/-- If `sep` is a prefix of `s`, return the remainder. -/
def stripPrefixQ : List Char → List Char → Option (List Char)
  | [], s => some s
  | _ :: _, [] => none
  | p :: ps, c :: cs => if p = c then stripPrefixQ ps cs else none

theorem stripPrefixQ_some {sep s r : List Char}
    (h : stripPrefixQ sep s = some r) : s = sep ++ r := by
  induction sep generalizing s with
  | nil => simpa [stripPrefixQ] using h
  | cons p ps ih =>
    cases s with
    | nil => simp [stripPrefixQ] at h
    | cons c cs =>
      by_cases hpc : p = c
      · subst hpc
        simp only [stripPrefixQ, if_pos rfl] at h
        simp [ih h]
      · simp [stripPrefixQ, hpc] at h

theorem stripPrefixQ_of_append (sep r : List Char) :
    stripPrefixQ sep (sep ++ r) = some r := by
  induction sep with
  | nil => simp [stripPrefixQ]
  | cons p ps ih => simp [stripPrefixQ, ih]

/-- Position of the first occurrence of `sep` in `s`, as the pair
(text before, text after); `none` when `sep` does not occur. -/
def findSep (sep : List Char) : List Char → Option (List Char × List Char)
  | [] => none
  | c :: cs =>
    match stripPrefixQ sep (c :: cs) with
    | some r => some ([], r)
    | none => (findSep sep cs).map (fun ba => (c :: ba.1, ba.2))

theorem findSep_decomp {sep s b a : List Char}
    (h : findSep sep s = some (b, a)) : s = b ++ sep ++ a := by
  induction s generalizing b a with
  | nil => simp [findSep] at h
  | cons c cs ih =>
    rw [findSep] at h
    cases hstrip : stripPrefixQ sep (c :: cs) with
    | some r =>
      rw [hstrip] at h
      simp only [Option.some.injEq, Prod.mk.injEq] at h
      obtain ⟨hb, ha⟩ := h
      subst hb; subst ha
      simpa using stripPrefixQ_some hstrip
    | none =>
      rw [hstrip] at h
      simp only [Option.map_eq_some'] at h
      obtain ⟨⟨b', a'⟩, hfind, heq⟩ := h
      simp only [Prod.mk.injEq] at heq
      obtain ⟨hb, ha⟩ := heq
      subst hb; subst ha
      simpa using ih hfind

theorem findSep_none_of_no_occ {sh : Char} {st : List Char} {s : List Char}
    (h : ¬ ∃ b a, s = b ++ (sh :: st) ++ a) : findSep (sh :: st) s = none := by
  induction s with
  | nil => simp [findSep]
  | cons c cs ih =>
    rw [findSep]
    cases hstrip : stripPrefixQ (sh :: st) (c :: cs) with
    | some r =>
      exact absurd ⟨[], r, by simpa using stripPrefixQ_some hstrip⟩ h
    | none =>
      have hcs : findSep (sh :: st) cs = none := by
        apply ih
        rintro ⟨b, a, hba⟩
        exact h ⟨c :: b, a, by simp [hba]⟩
      simp [hcs]

theorem findSep_of_unique {sh : Char} {st : List Char} {pre suf s : List Char}
    (hs : s = pre ++ (sh :: st) ++ suf)
    (huniq : ∀ p q, s = p ++ (sh :: st) ++ q → p = pre ∧ q = suf) :
    findSep (sh :: st) s = some (pre, suf) := by
  induction pre generalizing s with
  | nil =>
    subst hs
    show findSep (sh :: st) (sh :: (st ++ suf)) = some ([], suf)
    rw [findSep]
    rw [show stripPrefixQ (sh :: st) (sh :: (st ++ suf)) = some suf from
      stripPrefixQ_of_append (sh :: st) suf]
  | cons c pre' ih =>
    subst hs
    have hne : stripPrefixQ (sh :: st) (c :: (pre' ++ (sh :: st) ++ suf)) = none := by
      cases hstrip : stripPrefixQ (sh :: st) (c :: (pre' ++ (sh :: st) ++ suf)) with
      | none => rfl
      | some r =>
        have hdec := stripPrefixQ_some hstrip
        obtain ⟨hb, _⟩ := huniq [] r (by simpa using hdec)
        simp at hb
    have hcs : findSep (sh :: st) (pre' ++ (sh :: st) ++ suf) = some (pre', suf) := by
      apply ih rfl
      intro p q hpq
      have hcq := huniq (c :: p) q (by simp [hpq])
      refine ⟨?_, hcq.2⟩
      have hcons : c :: p = c :: pre' := hcq.1
      simpa using hcons
    show findSep (sh :: st) (c :: (pre' ++ (sh :: st) ++ suf)) = some (c :: pre', suf)
    rw [findSep, hne, hcs]
    rfl

theorem stripPrefixQ_length {sep s r : List Char}
    (h : stripPrefixQ sep s = some r) : s.length = sep.length + r.length := by
  rw [stripPrefixQ_some h]; simp

/-- Iteration core of CPython `s.split(sep)`: cut at the leftmost
occurrence and continue on the remainder.  The fuel argument only bounds
the number of cuts (each cut strictly shortens the string, so
`s.length` cuts always suffice); it keeps the recursion structural and
hence kernel-computable. -/
def pySplitGoF (sh : Char) (st : List Char) : Nat → List Char → List (List Char)
  | 0, s => [s]
  | fuel + 1, s =>
    match findSep (sh :: st) s with
    | none => [s]
    | some ba => ba.1 :: pySplitGoF sh st fuel ba.2

theorem pySplitGoF_fuel_ge (sh : Char) (st : List Char) :
    ∀ (fuel : Nat) (s : List Char), s.length ≤ fuel →
      pySplitGoF sh st fuel s = pySplitGoF sh st s.length s := by
  intro fuel
  induction fuel using Nat.strong_induction_on with
  | _ fuel ih =>
    intro s hle
    cases fuel with
    | zero =>
      have h0 : s.length = 0 := Nat.le_zero.mp hle
      rw [h0]
    | succ f =>
      cases hsl : s.length with
      | zero =>
        have hs : s = [] := List.length_eq_zero.mp hsl
        subst hs
        simp [pySplitGoF, findSep]
      | succ n =>
        rw [pySplitGoF, pySplitGoF]
        cases hfs : findSep (sh :: st) s with
        | none => rfl
        | some ba =>
          have hdec : s = ba.1 ++ (sh :: st) ++ ba.2 := findSep_decomp (by simpa using hfs)
          have hslen : s.length = ba.1.length + (st.length + ba.2.length + 1) := by
            rw [hdec]; simp
          have h1 : pySplitGoF sh st f ba.2 = pySplitGoF sh st ba.2.length ba.2 :=
            ih f (by omega) ba.2 (by omega)
          have h2 : pySplitGoF sh st n ba.2 = pySplitGoF sh st ba.2.length ba.2 :=
            ih n (by omega) ba.2 (by omega)
          show ba.1 :: pySplitGoF sh st f ba.2 = ba.1 :: pySplitGoF sh st n ba.2
          rw [h1, h2]

/-- CPython `s.split(sep)` for a non-empty separator `sh :: st`. -/
def pySplitNE (sh : Char) (st : List Char) (s : List Char) : List (List Char) :=
  pySplitGoF sh st s.length s

/-- Python `s.split(sep)`; `split('')` raises in Python and is never
reached by the embedded code (the separator always ends in `'/'`), so the
empty-separator row is arbitrary. -/
def pySplit (s sep : List Char) : List (List Char) :=
  match sep with
  | [] => [s]
  | sh :: st => pySplitNE sh st s

theorem pySplitNE_of_none {sh : Char} {st : List Char} {s : List Char}
    (h : findSep (sh :: st) s = none) : pySplitNE sh st s = [s] := by
  rw [pySplitNE]
  cases hsl : s.length with
  | zero => rfl
  | succ n => rw [pySplitGoF, h]

theorem pySplitNE_of_some {sh : Char} {st : List Char} {s b a : List Char}
    (h : findSep (sh :: st) s = some (b, a)) :
    pySplitNE sh st s = b :: pySplitNE sh st a := by
  have hdec : s = b ++ (sh :: st) ++ a := findSep_decomp h
  have hslen : s.length = b.length + (st.length + a.length + 1) := by
    rw [hdec]; simp
  rw [pySplitNE]
  cases hsl : s.length with
  | zero => omega
  | succ n =>
    rw [pySplitGoF, h]
    have hlen : a.length ≤ n := by omega
    show b :: pySplitGoF sh st n a = b :: pySplitNE sh st a
    rw [pySplitGoF_fuel_ge sh st n a hlen]
    rfl

theorem pySplitNE_no_occ {sh : Char} {st : List Char} {s : List Char}
    (h : ¬ ∃ b a, s = b ++ (sh :: st) ++ a) : pySplitNE sh st s = [s] :=
  pySplitNE_of_none (findSep_none_of_no_occ h)

theorem pySplitNE_unique_occ {sh : Char} {st : List Char} {pre suf s : List Char}
    (hs : s = pre ++ (sh :: st) ++ suf)
    (huniq : ∀ p q, s = p ++ (sh :: st) ++ q → p = pre ∧ q = suf) :
    pySplitNE sh st s = [pre, suf] := by
  rw [pySplitNE_of_some (findSep_of_unique hs huniq)]
  have hnosuf : ¬ ∃ b a, suf = b ++ (sh :: st) ++ a := by
    rintro ⟨b, a, hba⟩
    have h1 := huniq (pre ++ (sh :: st) ++ b) a (by simp [hs, hba])
    have h2 : pre ++ (sh :: st) ++ b = pre := h1.1
    have h3 : (pre ++ (sh :: st) ++ b).length = pre.length := by rw [h2]
    simp at h3
  rw [pySplitNE_no_occ hnosuf]

/-! ### Substring occurrence counting

The spec speaks of a path "containing the anchor directory name followed
by `'/'` exactly once"; `countOcc` counts the positions at which the
separator occurs, independently of the split function. -/

/-- `sep` occurs in `s` at position `i`. -/
def occursAt (s sep : List Char) (i : Nat) : Bool :=
  decide ((s.drop i).take sep.length = sep)

/-- Number of positions at which `sep` occurs in `s`. -/
def countOcc (s sep : List Char) : Nat :=
  ((List.range (s.length + 1)).filter (occursAt s sep)).length

theorem occursAt_decomp {s sep : List Char} {i : Nat} (h : occursAt s sep i = true) :
    s = s.take i ++ sep ++ s.drop (i + sep.length) := by
  have htake : (s.drop i).take sep.length = sep := by simpa [occursAt] using h
  have hdrop : (s.drop i).drop sep.length = s.drop (i + sep.length) := by
    rw [List.drop_drop, Nat.add_comm]
  calc s = s.take i ++ s.drop i := (List.take_append_drop i s).symm
    _ = s.take i ++ ((s.drop i).take sep.length ++ (s.drop i).drop sep.length) := by
        congr 1
        exact (List.take_append_drop _ _).symm
    _ = s.take i ++ sep ++ s.drop (i + sep.length) := by
        rw [htake, hdrop, List.append_assoc]

theorem occursAt_of_decomp (p sep q : List Char) :
    occursAt (p ++ sep ++ q) sep p.length = true := by
  simp only [occursAt, decide_eq_true_eq]
  rw [List.append_assoc, List.drop_left, List.take_left]

theorem countOcc_eq_one {s sep : List Char} (h : countOcc s sep = 1) :
    ∃ pre suf, s = pre ++ sep ++ suf ∧
      ∀ p q, s = p ++ sep ++ q → p = pre ∧ q = suf := by
  obtain ⟨i0, hL⟩ := List.length_eq_one.mp h
  have hi0 : i0 ∈ (List.range (s.length + 1)).filter (occursAt s sep) := by
    rw [hL]; simp
  have hocc : occursAt s sep i0 = true := (List.mem_filter.mp hi0).2
  refine ⟨s.take i0, s.drop (i0 + sep.length), occursAt_decomp hocc, ?_⟩
  intro p q hpq
  have hplen : p.length ∈ (List.range (s.length + 1)).filter (occursAt s sep) := by
    rw [List.mem_filter]
    constructor
    · rw [List.mem_range]
      have hlen : s.length = p.length + sep.length + q.length := by
        rw [hpq]; simp only [List.length_append]
      omega
    · rw [hpq]; exact occursAt_of_decomp p sep q
  have hpi : p.length = i0 := by rw [hL] at hplen; simpa using hplen
  constructor
  · rw [hpq, ← hpi, List.append_assoc, List.take_left]
  · rw [hpq, ← hpi]
    have hps : p.length + sep.length = (p ++ sep).length := by simp
    rw [hps, List.drop_left]

theorem countOcc_eq_zero {s sep : List Char} (h : countOcc s sep = 0) :
    ¬ ∃ p q, s = p ++ sep ++ q := by
  rintro ⟨p, q, hpq⟩
  have hplen : p.length ∈ (List.range (s.length + 1)).filter (occursAt s sep) := by
    rw [List.mem_filter]
    constructor
    · rw [List.mem_range]
      have hlen : s.length = p.length + sep.length + q.length := by
        rw [hpq]; simp only [List.length_append]
      omega
    · rw [hpq]; exact occursAt_of_decomp p sep q
  rw [countOcc] at h
  rw [List.length_eq_zero] at h
  rw [h] at hplen
  cases hplen

/-! ### `os.path.join` and `add_new_system_path` -/

/-- `os.path.join(a, b)` for POSIX: an absolute second component
discards the first, otherwise the two are joined with a single slash. -/
def osJoin2 (a b : PathC) : PathC :=
  if b.head? = some '/' then b
  else if a = [] then b
  else if a.getLast? = some '/' then a ++ b
  else a ++ '/' :: b

/-- `genome_manager.add_new_system_path` (the `deriveNewMountPath`
primitive): split the first stored path on `f'{split_keyword}/'`, unpack
into exactly two parts, and store
`Path(os.path.join(new_basepath, split_keyword, relpath))` under
`system_name`.  `none` models the raised exception (`StopIteration` on an
empty path dict, `ValueError` when the unpack does not get exactly two
parts). -/
def add_new_system_path (paths : List (String × PathC)) (new_basepath : PathC)
    (system_name : String) (split_keyword : PathC) : Option (List (String × PathC)) :=
  match paths with
  | [] => none
  | (_, p0) :: _ =>
    match pySplit p0 (split_keyword ++ ['/']) with
    | [_, relpath] =>
      some (setA paths system_name (osJoin2 (osJoin2 new_basepath split_keyword) relpath))
    | _ => none

theorem pySplit_unique_occ {sep pre suf s : List Char} (hne : sep ≠ [])
    (hs : s = pre ++ sep ++ suf)
    (huniq : ∀ p q, s = p ++ sep ++ q → p = pre ∧ q = suf) :
    pySplit s sep = [pre, suf] := by
  cases sep with
  | nil => exact absurd rfl hne
  | cons sh st => exact pySplitNE_unique_occ hs huniq

theorem pySplit_no_occ {sep s : List Char} (hne : sep ≠ [])
    (h : ¬ ∃ b a, s = b ++ sep ++ a) : pySplit s sep = [s] := by
  cases sep with
  | nil => exact absurd rfl hne
  | cons sh st => exact pySplitNE_no_occ h

/-- C2: `deriveNewMountPath` (`add_new_system_path`) is a pure function of
its inputs: for every POSIX path containing the anchor directory name
followed by `'/'` exactly once, and every new base path, the result maps
the mount name to `newBasePath/anchor/<suffix>` where the suffix is
exactly the part of the original path after the anchor — regardless of
the base path; and it fails (raises) when the anchor does not appear in
the path. -/
theorem derive_new_mount_path_spec (anchor : PathC) (k0 : String) (p0 : PathC)
    (rest : List (String × PathC)) :
    (countOcc p0 (anchor ++ ['/']) = 1 →
      ∃ pre suf, p0 = pre ++ (anchor ++ ['/']) ++ suf ∧
        ∀ base sys, add_new_system_path ((k0, p0) :: rest) base sys anchor =
          some (setA ((k0, p0) :: rest) sys (osJoin2 (osJoin2 base anchor) suf))) ∧
    (countOcc p0 (anchor ++ ['/']) = 0 →
      ∀ base sys, add_new_system_path ((k0, p0) :: rest) base sys anchor = none) := by
  have hne : anchor ++ ['/'] ≠ [] := by simp
  constructor
  · intro h1
    obtain ⟨pre, suf, hs, huniq⟩ := countOcc_eq_one h1
    refine ⟨pre, suf, hs, ?_⟩
    intro base sys
    rw [add_new_system_path]
    rw [pySplit_unique_occ hne hs huniq]
  · intro h0 base sys
    rw [add_new_system_path]
    rw [pySplit_no_occ hne (countOcc_eq_zero h0)]

/-- Witness for C2 at a concrete registry path and anchor. -/
theorem derive_new_mount_path_spec_witness :
    countOcc ("/data/reg/genomes/release-1/x.fa".toList) ("genomes".toList ++ ['/']) = 1 ∧
    ∃ pre suf, "/data/reg/genomes/release-1/x.fa".toList =
        pre ++ ("genomes".toList ++ ['/']) ++ suf ∧
      ∀ base sys,
        add_new_system_path [("hpc", "/data/reg/genomes/release-1/x.fa".toList)]
            base sys ("genomes".toList) =
          some (setA [("hpc", "/data/reg/genomes/release-1/x.fa".toList)] sys
            (osJoin2 (osJoin2 base ("genomes".toList)) suf)) :=
  ⟨by decide,
    (derive_new_mount_path_spec ("genomes".toList) "hpc"
      ("/data/reg/genomes/release-1/x.fa".toList) []).1 (by decide)⟩

/-! ### `add_new_basepath` (per-asset mount addition, lines 791-823) -/

theorem lookupA_isSome_concat {α : Type} (l : List (String × α)) (k : String) (v : α) :
    (lookupA (l ++ [(k, v)]) k).isSome := by
  induction l with
  | nil => simp [lookupA]
  | cons hd tl ih =>
    obtain ⟨k0, w⟩ := hd
    by_cases h : k0 = k <;> simp [lookupA, h, ih]

/-- `genome_manager.add_new_basepath`: split the first stored path of an
asset's path dict on `f'{split_keyword}/'`, join the relative part onto
the new basepath, optionally verify that the derived path exists on the
filesystem (`fsExists` is the `Path.exists()` oracle), and finally insert
the derived path under `system_name` unless that key is already present
(in which case the dict is left untouched).  `.error` models the raised
exception. -/
def add_new_basepath (fsExists : PathC → Bool) (path : List (String × PathC))
    (split_keyword : PathC) (basepath : PathC) (system_name : String)
    (verify : Bool) : Except Err (List (String × PathC)) :=
  match path with
  | [] => .error .stopIteration
  | (_, p0) :: _ =>
    match pySplit p0 (split_keyword ++ ['/']) with
    | [_, relpath] =>
      let new_path := osJoin2 (osJoin2 basepath split_keyword) relpath
      if verify ∧ fsExists new_path = false then .error (.fileNotFound new_path)
      else if (lookupA path system_name).isSome then .ok path
      else .ok (path ++ [(system_name, new_path)])
    | _ => .error (.valueError "unpack")

/-- C6: `addMount` (`add_new_basepath`) is idempotent on the asset's path
map: when the mount name is already a key in the path map, any completed
call returns the map unchanged (the existing entry is not overwritten);
and after any successful call, repeating the call with the same mount
name succeeds and leaves the path map equal to its state after the first
call. -/
theorem add_new_basepath_idempotent (fsExists : PathC → Bool)
    (m m' : List (String × PathC)) (kw bp : PathC) (sys : String) (verify : Bool) :
    ((lookupA m sys).isSome →
      ∀ m'', add_new_basepath fsExists m kw bp sys verify = .ok m'' → m'' = m) ∧
    (add_new_basepath fsExists m kw bp sys verify = .ok m' →
      add_new_basepath fsExists m' kw bp sys verify = .ok m') := by
  constructor
  · intro hmem m'' hok
    match m with
    | [] => simp [add_new_basepath] at hok
    | (k0, p0) :: rest =>
      simp only [add_new_basepath] at hok
      split at hok
      · next u relpath heq =>
        split at hok
        · cases hok
        · cases hok
          rfl
      · cases hok
  · intro hok
    match m with
    | [] => simp [add_new_basepath] at hok
    | (k0, p0) :: rest =>
      simp only [add_new_basepath] at hok
      split at hok
      · next u relpath heq =>
        split at hok
        · cases hok
        · next hv =>
          by_cases hmem : (lookupA ((k0, p0) :: rest) sys).isSome
          · rw [if_pos hmem] at hok
            cases hok
            simp only [add_new_basepath]
            rw [heq]
            simp only [if_neg hv, if_pos hmem]
          · rw [if_neg hmem] at hok
            cases hok
            simp only [add_new_basepath, List.cons_append]
            rw [heq]
            have hmem2 : (lookupA
                ((k0, p0) :: (rest ++ [(sys, osJoin2 (osJoin2 bp kw) relpath)])) sys).isSome := by
              have h1 := lookupA_isSome_concat ((k0, p0) :: rest) sys
                (osJoin2 (osJoin2 bp kw) relpath)
              simpa using h1
            simp only [if_neg hv, if_pos hmem2]
      · cases hok

/-- Compute a two-part split from the two `findSep` facts; used to
evaluate `pySplit` at concrete inputs. -/
theorem pySplit_eq_two {s kw u relpath : List Char}
    (h1 : findSep (kw ++ ['/']) s = some (u, relpath))
    (h2 : findSep (kw ++ ['/']) relpath = none) :
    pySplit s (kw ++ ['/']) = [u, relpath] := by
  cases kw with
  | nil =>
    show pySplitNE '/' [] s = _
    rw [pySplitNE_of_some (by simpa using h1), pySplitNE_of_none (by simpa using h2)]
  | cons a as =>
    show pySplitNE a (as ++ ['/']) s = _
    rw [pySplitNE_of_some (by simpa using h1), pySplitNE_of_none (by simpa using h2)]

/-- Witness for C6: registering mount `aws` on an asset known under
`hpc` and then repeating the call returns the same path map. -/
theorem add_new_basepath_idempotent_witness :
    ∃ m', add_new_basepath (fun _ => true) [("hpc", "/a/genomes/x.fa".toList)]
        ("genomes".toList) ("/b".toList) "aws" true = .ok m' ∧
      add_new_basepath (fun _ => true) m' ("genomes".toList) ("/b".toList) "aws" true =
        .ok m' := by
  have h1 : add_new_basepath (fun _ => true) [("hpc", "/a/genomes/x.fa".toList)]
      ("genomes".toList) ("/b".toList) "aws" true =
      .ok [("hpc", "/a/genomes/x.fa".toList), ("aws", "/b/genomes/x.fa".toList)] := by
    have hsplit : pySplit ("/a/genomes/x.fa".toList) ("genomes".toList ++ ['/']) =
        ["/a/".toList, "x.fa".toList] := pySplit_eq_two (by decide) (by decide)
    simp only [add_new_basepath]
    rw [hsplit]
    rfl
  exact ⟨_, h1,
    (add_new_basepath_idempotent (fun _ => true) [("hpc", "/a/genomes/x.fa".toList)]
      [("hpc", "/a/genomes/x.fa".toList), ("aws", "/b/genomes/x.fa".toList)]
      ("genomes".toList) ("/b".toList) "aws" true).2 h1⟩

/-- C10: in `add_new_basepath` with `verify=True` the
filesystem-existence check on the derived path runs before the
already-present check on the mount name, so even for an asset whose path
map already contains the mount name the call raises a not-found error
when the derived path does not exist. -/
theorem add_new_basepath_verify_first (fsExists : PathC → Bool)
    (k0 : String) (p0 : PathC) (rest : List (String × PathC)) (kw bp : PathC)
    (sys : String) (u relpath : PathC)
    (hsplit : pySplit p0 (kw ++ ['/']) = [u, relpath])
    (hmem : (lookupA ((k0, p0) :: rest) sys).isSome)
    (hfs : fsExists (osJoin2 (osJoin2 bp kw) relpath) = false) :
    add_new_basepath fsExists ((k0, p0) :: rest) kw bp sys true =
      .error (.fileNotFound (osJoin2 (osJoin2 bp kw) relpath)) := by
  simp only [add_new_basepath]
  rw [hsplit]
  simp [hfs]

/-- Witness for C10: the mount name `hpc` is already present, yet with an
unreachable derived path the call fails with a not-found error. -/
theorem add_new_basepath_verify_first_witness :
    add_new_basepath (fun _ => false) [("hpc", "/a/genomes/x.fa".toList)]
        ("genomes".toList) ("/b".toList) "hpc" true =
      .error (.fileNotFound (osJoin2 (osJoin2 ("/b".toList) ("genomes".toList))
        ("x.fa".toList))) := by
  have hsplit : pySplit ("/a/genomes/x.fa".toList) ("genomes".toList ++ ['/']) =
      ["/a/".toList, "x.fa".toList] := pySplit_eq_two (by decide) (by decide)
  exact add_new_basepath_verify_first (fun _ => false) "hpc" ("/a/genomes/x.fa".toList)
    [] ("genomes".toList) ("/b".toList) "hpc" ("/a/".toList) ("x.fa".toList)
    hsplit (by decide) rfl

/-! ### `GenomeCollection.get_genome_info` (lines 290-300) -/

/-- The metadata fields of a genome that the per-species summary reads
(`genome.base.metadata`). -/
structure GenomeMeta where
  species : String
  release : Nat
  assembly : String
  deriving DecidableEq, Repr

/-- One row of the `get_genome_info` report. -/
structure InfoEntry where
  id : String
  release : Nat
  assembly : String
  deriving DecidableEq, Repr

/-- `GenomeCollection.get_genome_info`: iterate over the
insertion-ordered `genomes` dict and assign
`genome_info[species] = {id, release, assembly}` for every genome, so a
later genome with the same species overwrites the earlier row. -/
def get_genome_info (genomes : List (String × GenomeMeta)) : List (String × InfoEntry) :=
  genomes.foldl
    (fun acc ig => setA acc ig.2.species ⟨ig.1, ig.2.release, ig.2.assembly⟩) []

theorem get_genome_info_go_nodup (gs : List (String × GenomeMeta)) :
    ∀ (acc : List (String × InfoEntry)), (acc.map Prod.fst).Nodup →
      ((gs.foldl
        (fun acc ig => setA acc ig.2.species ⟨ig.1, ig.2.release, ig.2.assembly⟩)
        acc).map Prod.fst).Nodup := by
  induction gs with
  | nil => intro acc h; simpa using h
  | cons ig rest ih =>
    intro acc h
    rw [List.foldl_cons]
    exact ih _ (setA_nodup_keys acc _ _ h)

theorem get_genome_info_go_lookup (gs : List (String × GenomeMeta))
    (acc : List (String × InfoEntry)) (sp : String) :
    lookupA (gs.foldl
        (fun acc ig => setA acc ig.2.species ⟨ig.1, ig.2.release, ig.2.assembly⟩)
        acc) sp =
      ((gs.filter (fun ig => decide (ig.2.species = sp))).getLast?).elim
        (lookupA acc sp)
        (fun ig => some ⟨ig.1, ig.2.release, ig.2.assembly⟩) := by
  induction gs using List.reverseRecOn with
  | nil => simp
  | append_singleton gs' ig ih =>
    rw [List.foldl_append, List.foldl_cons, List.foldl_nil, List.filter_append]
    by_cases hp : ig.2.species = sp
    · have hfil : List.filter (fun ig => decide (ig.2.species = sp)) [ig] = [ig] := by
        simp [hp]
      rw [hfil, List.getLast?_concat]
      simp only [Option.elim]
      rw [← hp, lookupA_setA_self]
    · have hfil : List.filter (fun ig => decide (ig.2.species = sp)) [ig] = [] := by
        simp [hp]
      rw [hfil, List.append_nil]
      rw [lookupA_setA_ne _ _ _ _ (fun hh => hp hh.symm)]
      exact ih

/-- C9: the per-species summary keeps at most one row per species: its
keys are duplicate-free, and the row stored for a species is exactly the
one of the genome iterated last among those sharing that species — the
earlier ones are absent from the summary. -/
theorem get_genome_info_last_wins (genomes : List (String × GenomeMeta)) :
    ((get_genome_info genomes).map Prod.fst).Nodup ∧
    ∀ sp, lookupA (get_genome_info genomes) sp =
      ((genomes.filter (fun ig => decide (ig.2.species = sp))).getLast?).map
        (fun ig => (⟨ig.1, ig.2.release, ig.2.assembly⟩ : InfoEntry)) := by
  constructor
  · exact get_genome_info_go_nodup genomes [] (by simp)
  · intro sp
    rw [get_genome_info, get_genome_info_go_lookup genomes [] sp]
    cases (genomes.filter (fun ig => decide (ig.2.species = sp))).getLast? with
    | none => simp [lookupA]
    | some ig => simp

/-! ### `GenomeFile.add_checksum` (lines 88-112) -/

/-- A stored content fingerprint: in the Python code the checksum field
holds either the raw `st_size` of a large file or an md5 hex digest. -/
inductive Fingerprint where
  | size (n : Nat)
  | digest (d : Nat)
  deriving DecidableEq, Repr

/-- The successive chunks produced by `while chunk := f.read(16384)`.
The fuel argument only bounds the number of reads (each read consumes at
least one byte), keeping the recursion structural. -/
def readChunks : Nat → List Nat → List (List Nat)
  | 0, _ => []
  | _ + 1, [] => []
  | fuel + 1, c :: cs => (c :: cs).take 16384 :: readChunks fuel ((c :: cs).drop 16384)

/-- All chunks of a file's content. -/
def fileChunks (content : List Nat) : List (List Nat) :=
  readChunks content.length content

theorem readChunks_flatten (fuel : Nat) :
    ∀ content : List Nat, content.length ≤ fuel →
      (readChunks fuel content).flatten = content := by
  induction fuel with
  | zero =>
    intro content hle
    have h0 : content = [] := List.length_eq_zero.mp (Nat.le_zero.mp hle)
    subst h0
    rfl
  | succ f ih =>
    intro content hle
    cases content with
    | nil => rfl
    | cons c cs =>
      rw [readChunks, List.flatten_cons]
      have hlen : ((c :: cs).drop 16384).length ≤ f := by
        simp only [List.length_drop, List.length_cons] at *
        omega
      rw [ih _ hlen, List.take_append_drop]

theorem fileChunks_flatten (content : List Nat) :
    (fileChunks content).flatten = content :=
  readChunks_flatten content.length content le_rfl

theorem foldl_append_eq_flatten (ls : List (List Nat)) :
    ∀ acc : List Nat, ls.foldl (· ++ ·) acc = acc ++ ls.flatten := by
  induction ls with
  | nil => intro acc; simp
  | cons hd tl ih =>
    intro acc
    rw [List.foldl_cons, ih, List.flatten_cons, List.append_assoc]

/-- `GenomeFile.add_checksum` validator: look up the file at the active
mount's path (its byte content is `content` here), take its size; if the
size exceeds 100000 return the raw size as the fingerprint without
hashing; otherwise feed the file to md5 in 16384-byte chunks (`hash`
abstracts the digest as a function of the accumulated bytes) and, when a
previously stored value exists and differs, log the
`ChecksumMismatchError` (second component `true`) but still return the
freshly computed digest. -/
def add_checksum (hash : List Nat → Nat) (content : List Nat)
    (stored : Option Fingerprint) : Fingerprint × Bool :=
  let filesize := content.length
  if filesize > 100000 then (.size filesize, false)
  else
    let md5_hash := hash ((fileChunks content).foldl (· ++ ·) [])
    match stored with
    | some v => if v ≠ .digest md5_hash then (.digest md5_hash, true)
                else (.digest md5_hash, false)
    | none => (.digest md5_hash, false)

/-- C8: on validation, a file larger than 100000 bytes gets the raw file
size as its fingerprint instead of a content hash; otherwise the md5
digest is computed over the fixed-size chunks of the content (whose
concatenation is exactly the content); and when a stored fingerprint
exists and differs from the fresh one, the mismatch is only logged:
validation still succeeds and returns the freshly computed
fingerprint. -/
theorem add_checksum_spec (hash : List Nat → Nat) (content : List Nat)
    (stored : Option Fingerprint) :
    (content.length > 100000 →
      add_checksum hash content stored = (.size content.length, false)) ∧
    (content.length ≤ 100000 →
      (fileChunks content).flatten = content ∧
      (add_checksum hash content stored).1 = .digest (hash content)) ∧
    (∀ v, content.length ≤ 100000 → stored = some v →
      v ≠ .digest (hash content) →
      add_checksum hash content stored = (.digest (hash content), true)) := by
  have hj : (fileChunks content).foldl (· ++ ·) [] = content := by
    rw [foldl_append_eq_flatten, fileChunks_flatten]
    rfl
  refine ⟨?_, ?_, ?_⟩
  · intro hgt
    simp [add_checksum, hgt]
  · intro hle
    refine ⟨fileChunks_flatten content, ?_⟩
    rw [add_checksum]
    simp only [if_neg (by omega : ¬ content.length > 100000), hj]
    cases stored with
    | none => rfl
    | some v =>
      by_cases hv : v ≠ .digest (hash content)
      · simp [hv]
      · simp [hv]
  · intro v hle hst hne
    subst hst
    rw [add_checksum]
    simp only [if_neg (by omega : ¬ content.length > 100000), hj]
    simp [hne]

/-- Witness for C8: a large file keeps its size as fingerprint; a small
file with a differing stored fingerprint logs the mismatch but still
returns the fresh digest. -/
theorem add_checksum_spec_witness :
    add_checksum (fun l => l.foldl (· + ·) 0) (List.replicate 100001 0) none =
      (.size 100001, false) ∧
    add_checksum (fun l => l.foldl (· + ·) 0) [1, 2, 3] (some (.digest 999)) =
      (.digest 6, true) := by
  constructor
  · have hlen : (List.replicate 100001 (0 : Nat)).length = 100001 :=
      List.length_replicate 100001 0
    have h := (add_checksum_spec (fun l => l.foldl (· + ·) 0)
      (List.replicate 100001 0) none).1 (by rw [hlen]; omega)
    rw [hlen] at h
    exact h
  · have h := (add_checksum_spec (fun l => l.foldl (· + ·) 0) [1, 2, 3]
      (some (.digest 999))).2.2 (.digest 999) (by decide) rfl (by decide)
    simpa using h

/-! ### `UserDefinedGene.add_version` (lines 447-489) -/

/-- The fields of a stored gene-model version that `add_version` reads:
the content fingerprint computed at validation and the per-mount path
dict. -/
structure GeneModelFile where
  checksum : Fingerprint
  path : List (String × PathC)
  deriving DecidableEq, Repr

/-- `Path(p).parent` of a POSIX path: everything before the last
slash. -/
def parentDir (p : PathC) : PathC :=
  ((p.reverse.dropWhile (fun c => c != '/')).drop 1).reverse

/-- `str(n).zfill(2)`. -/
def zfill2 (n : Nat) : List Char :=
  let s := (toString n).toList
  if s.length < 2 then '0' :: s else s

/-- `sorted(self.gene_model.keys())[-1]` on a non-empty dict of int
keys: the maximum key (`foldl max 0`, identical to the sorted-last
element for the `Nat` keys used by the registry). -/
def maxKey (m : List (Nat × GeneModelFile)) : Nat :=
  (m.map Prod.fst).foldl Nat.max 0

theorem le_foldl_max_init (l : List Nat) : ∀ a : Nat, a ≤ l.foldl Nat.max a := by
  induction l with
  | nil => intro a; exact le_rfl
  | cons x xs ih => intro a; exact le_trans (Nat.le_max_left a x) (ih (Nat.max a x))

theorem le_foldl_max_mem (l : List Nat) : ∀ (a x : Nat), x ∈ l → x ≤ l.foldl Nat.max a := by
  induction l with
  | nil => intro a x hx; cases hx
  | cons y ys ih =>
    intro a x hx
    rcases List.mem_cons.mp hx with h | h
    · subst h
      exact le_trans (Nat.le_max_right a x) (le_foldl_max_init ys _)
    · exact ih _ x h

/-- Outcome of `UserDefinedGene.add_version`: the returned
`(version, path)` pair or the raised error, the `gene_model` dict on
exit, and whether the copied file is still present at the destination on
exit (the error handler unlinks it when it was written). -/
structure AddVersionResult where
  result : Except Err (Nat × PathC)
  gene_model : List (Nat × GeneModelFile)
  destWritten : Bool
  deriving Repr

/-- `UserDefinedGene.add_version`: determine `latest_version` as the
maximum existing key (`sorted(keys)[-1]`, `IndexError` when the dict is
empty), recover the destination directory from the insertion-order last
version's path under `system_name` (`KeyError` when absent), build
`yaml_dest`, copy the new file there (`copyOk` is the `shutil.copy`
oracle), validate it as a `GenomeFile` whose checksum is `newChecksum`
(`modelOk` is the schema-validation oracle), reject it when the checksum
equals any stored version's checksum, and otherwise insert it at
`latest_version + 1`.  Any failure after the copy unlinks `yaml_dest`
and leaves `gene_model` unchanged. -/
def add_version (geneId : String) (m : List (Nat × GeneModelFile))
    (system_name : String) (newChecksum : Fingerprint)
    (copyOk modelOk : Bool) : AddVersionResult :=
  match m.getLast? with
  | none => ⟨.error .indexError, m, false⟩
  | some lastEntry =>
    let latest_version := maxKey m
    match lookupA lastEntry.2.path system_name with
    | none => ⟨.error .keyError, m, false⟩
    | some prior_yaml_path =>
      let yaml_dest := parentDir prior_yaml_path ++ '/' ::
        (geneId.toList ++ '_' :: 'v' :: (zfill2 (latest_version + 1) ++ ".yaml".toList))
      if copyOk = false then ⟨.error .copyError, m, false⟩
      else if modelOk = false then ⟨.error (.valueError "yaml gene model"), m, false⟩
      else if m.any (fun vgm => decide (vgm.2.checksum = newChecksum)) then
        ⟨.error .duplicateVersion, m, false⟩
      else
        ⟨.ok (latest_version + 1, yaml_dest),
          m ++ [(latest_version + 1, ⟨newChecksum, [(system_name, yaml_dest)]⟩)],
          true⟩

/-- C3: for a `UserDefinedGene` with a non-empty version map,
`add_version` assigns version number `max(existing keys) + 1`
(`maxKey m` really bounds every key), fails with a duplicate-content
error when the new file's checksum equals any stored version's checksum,
accepts a file whose checksum differs from all of them, and on any
failure leaves the version map unchanged with the copied file deleted
from the destination. -/
theorem add_version_spec (geneId : String) (m : List (Nat × GeneModelFile))
    (sys : String) (c : Fingerprint) (copyOk modelOk : Bool)
    (lastE : Nat × GeneModelFile) (prior : PathC)
    (hlast : m.getLast? = some lastE)
    (hsys : lookupA lastE.2.path sys = some prior) :
    (copyOk = true → modelOk = true → (∃ vgm ∈ m, vgm.2.checksum = c) →
      (add_version geneId m sys c copyOk modelOk).result = .error .duplicateVersion) ∧
    (copyOk = true → modelOk = true → (∀ vgm ∈ m, vgm.2.checksum ≠ c) →
      ∃ dest, (add_version geneId m sys c copyOk modelOk).result =
          .ok (maxKey m + 1, dest) ∧
        (add_version geneId m sys c copyOk modelOk).gene_model =
          m ++ [(maxKey m + 1, ⟨c, [(sys, dest)]⟩)]) ∧
    (∀ vgm ∈ m, vgm.1 ≤ maxKey m) ∧
    (∀ e, (add_version geneId m sys c copyOk modelOk).result = .error e →
      (add_version geneId m sys c copyOk modelOk).gene_model = m ∧
      (add_version geneId m sys c copyOk modelOk).destWritten = false) := by
  have hany_of : (∃ vgm ∈ m, vgm.2.checksum = c) →
      m.any (fun vgm => decide (vgm.2.checksum = c)) = true := by
    intro h
    rw [List.any_eq_true]
    obtain ⟨vgm, hmem, hc⟩ := h
    exact ⟨vgm, hmem, by simp [hc]⟩
  have hany_not : (∀ vgm ∈ m, vgm.2.checksum ≠ c) →
      m.any (fun vgm => decide (vgm.2.checksum = c)) = false := by
    intro h
    rw [List.any_eq_false]
    intro vgm hmem
    simp [h vgm hmem]
  refine ⟨?_, ?_, ?_, ?_⟩
  · intro hcopy hmodel hdup
    simp only [add_version, hlast, hsys, hcopy, hmodel, hany_of hdup]
    simp
  · intro hcopy hmodel hnodup
    refine ⟨parentDir prior ++ '/' :: (geneId.toList ++ '_' :: 'v' ::
        (zfill2 (maxKey m + 1) ++ ".yaml".toList)), ?_, ?_⟩ <;>
    · simp only [add_version, hlast, hsys, hcopy, hmodel, hany_not hnodup]
      simp
  · intro vgm hmem
    exact le_foldl_max_mem (m.map Prod.fst) 0 vgm.1 (List.mem_map_of_mem Prod.fst hmem)
  · intro e herr
    simp only [add_version, hlast, hsys] at herr ⊢
    cases copyOk with
    | false => exact ⟨rfl, rfl⟩
    | true =>
      cases modelOk with
      | false => exact ⟨rfl, rfl⟩
      | true =>
        cases hany : m.any (fun vgm => decide (vgm.2.checksum = c)) with
        | true =>
          simp only [hany]
          exact ⟨rfl, rfl⟩
        | false =>
          simp only [hany] at herr
          simp at herr

/-- Witness for C3: a single stored version with fingerprint `digest 5`;
a new file with fingerprint `digest 7` is accepted as version 2, and the
bound `maxKey` dominates the stored key. -/
theorem add_version_spec_witness :
    ∃ dest,
      (add_version "g1"
          [(1, ⟨.digest 5, [("hpc", "/r/user_defined_genes/g1/g1_v01.yaml".toList)]⟩)]
          "hpc" (.digest 7) true true).result =
        .ok (maxKey [(1, ⟨.digest 5,
            [("hpc", "/r/user_defined_genes/g1/g1_v01.yaml".toList)]⟩)] + 1, dest) ∧
      (add_version "g1"
          [(1, ⟨.digest 5, [("hpc", "/r/user_defined_genes/g1/g1_v01.yaml".toList)]⟩)]
          "hpc" (.digest 7) true true).gene_model =
        [(1, ⟨.digest 5, [("hpc", "/r/user_defined_genes/g1/g1_v01.yaml".toList)]⟩)] ++
          [(maxKey [(1, ⟨.digest 5,
              [("hpc", "/r/user_defined_genes/g1/g1_v01.yaml".toList)]⟩)] + 1,
            ⟨.digest 7, [("hpc", dest)]⟩)] :=
  (add_version_spec "g1"
      [(1, ⟨.digest 5, [("hpc", "/r/user_defined_genes/g1/g1_v01.yaml".toList)]⟩)]
      "hpc" (.digest 7) true true
      (1, ⟨.digest 5, [("hpc", "/r/user_defined_genes/g1/g1_v01.yaml".toList)]⟩)
      ("/r/user_defined_genes/g1/g1_v01.yaml".toList)
      (by decide) (by decide)).2.1 rfl rfl (by decide)

/-! ### `update_user_defined_gene` (lines 1285-1338) -/

/-- Outcome of an `update-gene` run from the point where the gene is
loaded: the value returned to the caller, the content of the gene's
config file on exit, whether the newly copied version file is still
present, and whether the config-rewrite failure was logged. -/
structure UpdateGeneResult where
  result : Except Err Unit
  configContent : String
  destWritten : Bool
  rewriteFailureLogged : Bool
  deriving Repr

/-- `update_user_defined_gene`, from the point where the gene has been
loaded from `configContent`: call `add_version` (its own error handling
already deleted the copied file on failure, and its exception
propagates); then retain the prior config contents in memory and rewrite
the config file (`writeOk` is the oracle for the `f.write` call, which
leaves `junk` behind when it fails mid-write).  If the rewrite raises,
the handler logs the failure, writes the retained prior contents back
and unlinks the copied version file — and the function then returns
normally, without re-raising. -/
def update_user_defined_gene (geneId : String)
    (m : List (Nat × GeneModelFile)) (sys : String) (newChecksum : Fingerprint)
    (copyOk modelOk : Bool) (configContent : String)
    (serialize : List (Nat × GeneModelFile) → String)
    (writeOk : Bool) (junk : String) : UpdateGeneResult :=
  let av := add_version geneId m sys newChecksum copyOk modelOk
  match av.result with
  | .error e => ⟨.error e, configContent, av.destWritten, false⟩
  | .ok _ =>
    if writeOk then ⟨.ok (), serialize av.gene_model, av.destWritten, false⟩
    else ⟨.ok (), configContent, false, true⟩

/-- C4 counterexample: a config rewrite that fails after a successful
`add_version` is logged and rolled back, but the call returns `ok` — the
exception is not propagated to the caller, contradicting the claim that
no error is swallowed. -/
theorem update_user_defined_gene_swallows :
    (update_user_defined_gene "gX"
        [(1, ⟨.digest 11, [("hpc", "/r/user_defined_genes/gX/gX_v01.yaml".toList)]⟩)]
        "hpc" (.digest 12) true true "prior config json" (fun _ => "new config json")
        false "truncated").result = .ok () ∧
    (update_user_defined_gene "gX"
        [(1, ⟨.digest 11, [("hpc", "/r/user_defined_genes/gX/gX_v01.yaml".toList)]⟩)]
        "hpc" (.digest 12) true true "prior config json" (fun _ => "new config json")
        false "truncated").rewriteFailureLogged = true ∧
    ∀ e, (update_user_defined_gene "gX"
        [(1, ⟨.digest 11, [("hpc", "/r/user_defined_genes/gX/gX_v01.yaml".toList)]⟩)]
        "hpc" (.digest 12) true true "prior config json" (fun _ => "new config json")
        false "truncated").result ≠ .error e := by
  refine ⟨rfl, rfl, ?_⟩
  intro e h
  rw [show (update_user_defined_gene "gX"
      [(1, ⟨.digest 11, [("hpc", "/r/user_defined_genes/gX/gX_v01.yaml".toList)]⟩)]
      "hpc" (.digest 12) true true "prior config json" (fun _ => "new config json")
      false "truncated").result = .ok () from rfl] at h
  cases h

/-- C4 (amended): when rewriting the gene's config file raises after
`add_version` succeeded, the prior config contents retained in memory
are written back, the newly copied version file is deleted and the
failure is logged — but the exception is swallowed: the call returns
normally instead of propagating the error. -/
theorem update_user_defined_gene_restore (geneId : String)
    (m : List (Nat × GeneModelFile)) (sys : String) (c : Fingerprint)
    (copyOk modelOk : Bool) (orig : String)
    (serialize : List (Nat × GeneModelFile) → String) (junk : String)
    (vp : Nat × PathC)
    (hok : (add_version geneId m sys c copyOk modelOk).result = .ok vp) :
    update_user_defined_gene geneId m sys c copyOk modelOk orig serialize false junk =
      ⟨.ok (), orig, false, true⟩ := by
  simp only [update_user_defined_gene]
  rw [hok]
  rfl

/-- Witness for the amended C4 at a concrete gene and version map. -/
theorem update_user_defined_gene_restore_witness :
    update_user_defined_gene "g2"
        [(1, ⟨.digest 21, [("hpc", "/r/user_defined_genes/g2/g2_v01.yaml".toList)]⟩)]
        "hpc" (.digest 22) true true "old json" (fun _ => "new json") false "half" =
      ⟨.ok (), "old json", false, true⟩ :=
  update_user_defined_gene_restore "g2"
    [(1, ⟨.digest 21, [("hpc", "/r/user_defined_genes/g2/g2_v01.yaml".toList)]⟩)]
    "hpc" (.digest 22) true true "old json" (fun _ => "new json") "half"
    (2, parentDir ("/r/user_defined_genes/g2/g2_v01.yaml".toList) ++ '/' ::
      ("g2".toList ++ '_' :: 'v' :: (zfill2 2 ++ ".yaml".toList)))
    rfl

/-! ### `build_new_genome` error recovery (lines 977-1095) -/

/-- The registry directories `build_new_genome` creates and removes: the
per-species genome directory and its parent release directory (which may
already hold other species of the same release). -/
structure BuildFs where
  genomeDirExists : Bool
  releaseDirExists : Bool
  releaseHasOtherSpecies : Bool
  deriving DecidableEq, Repr

/-- `build_new_genome`: fail fast when the genome directory already
exists; `globFail` models a failure locating the input files (before any
directory is created); `copyFail` models a failure while copying them in
(the copy block is outside the recovery `try`, so the directories it
created stay behind); after the copies, `postCopyFail` models any
failure in the schema-construction / registration block.  Its handler
removes the genome directory, then — because the parent release
directory exists — calls `rmdir` on it: when the parent still holds
another species the `rmdir` failure is logged and re-raised from inside
the handler, replacing the original exception; only when the parent was
emptied does the original exception propagate. -/
def build_new_genome (st : BuildFs) (globFail copyFail postCopyFail : Option Err) :
    Except Err Unit × BuildFs :=
  if st.genomeDirExists then (.error .fileExists, st)
  else
    match globFail with
    | some e => (.error e, st)
    | none =>
      match copyFail with
      | some e => (.error e, { st with genomeDirExists := true, releaseDirExists := true })
      | none =>
        match postCopyFail with
        | none => (.ok (), { st with genomeDirExists := true, releaseDirExists := true })
        | some e =>
          if st.releaseHasOtherSpecies then
            (.error .rmdirError,
              { st with genomeDirExists := false, releaseDirExists := true })
          else
            (.error e, { st with genomeDirExists := false, releaseDirExists := false })

/-- C5 counterexample: a registration failure in a release directory
that still holds another species removes the genome directory but
propagates the `rmdir` failure instead of re-raising the original
exception, contradicting the claim that the original failure is
re-raised to the caller. -/
theorem build_new_genome_reraise_cex :
    (build_new_genome ⟨false, true, true⟩ none none (some (.valueError "boom"))).1 =
      .error .rmdirError ∧
    (build_new_genome ⟨false, true, true⟩ none none
      (some (.valueError "boom"))).1 ≠ .error (.valueError "boom") := by
  constructor
  · rfl
  · intro h
    rw [show (build_new_genome ⟨false, true, true⟩ none none
      (some (.valueError "boom"))).1 = .error .rmdirError from rfl] at h
    simp at h

/-- C5 (amended): on any failure after the input files were copied, the
created genome directory is deleted, and the parent release directory is
deleted only if it is then empty; if it was emptied the original failure
is re-raised, but if the release directory still holds another species
the propagated exception is the directory-removal error, not the
original failure. -/
theorem build_new_genome_recovery (st : BuildFs) (e : Err)
    (h : st.genomeDirExists = false) :
    (build_new_genome st none none (some e)).2.genomeDirExists = false ∧
    ((build_new_genome st none none (some e)).2.releaseDirExists = false ↔
      st.releaseHasOtherSpecies = false) ∧
    (st.releaseHasOtherSpecies = false →
      (build_new_genome st none none (some e)).1 = .error e) ∧
    (st.releaseHasOtherSpecies = true →
      (build_new_genome st none none (some e)).1 = .error .rmdirError) := by
  obtain ⟨g, r, o⟩ := st
  simp only at h
  subst h
  cases o <;> simp [build_new_genome]

/-- Witness for the amended C5: with no other species in the release the
genome and release directories are removed and the original error is
re-raised. -/
theorem build_new_genome_recovery_witness :
    (build_new_genome ⟨false, true, false⟩ none none
        (some (.valueError "late failure"))).2.genomeDirExists = false ∧
    (build_new_genome ⟨false, true, false⟩ none none
        (some (.valueError "late failure"))).2.releaseDirExists = false ∧
    (build_new_genome ⟨false, true, false⟩ none none
        (some (.valueError "late failure"))).1 = .error (.valueError "late failure") := by
  have h := build_new_genome_recovery ⟨false, true, false⟩ (.valueError "late failure") rfl
  exact ⟨h.1, h.2.1.mpr rfl, h.2.2.1 rfl⟩

/-! ### The whole-registry mountpoint transaction
(`add_mountpoint`, lines 1392-1474; `remove_mountpoint`, lines
1476-1560; `update_config_mountpoint`, lines 894-952) -/

/-- A config directory: file name mapped to file content. -/
abbrev ConfDir := List (String × String)

/-- The registry state a mountpoint transaction touches: the two config
directories, the temporary recovery copies under `.tmp` (absent unless a
transaction is running), the mount table and its default system name. -/
structure Registry where
  genomeConf : ConfDir
  userConf : ConfDir
  tmpGenomeBackup : Option ConfDir
  tmpUserBackup : Option ConfDir
  defaultSystem : String
  mounts : List (String × String)
  deriving Repr

/-- Outcome of re-validating and overwriting one config file: success; a
schema-validation failure raised before the file is touched; or a write
failure that leaves partial content behind. -/
inductive WriteOutcome where
  | ok
  | failValidate
  | failWrite (junk : String)

/-- The per-directory loop of `update_config_mountpoint`: load each
config file and apply the add/remove edit in memory, keeping the same
file names; the first failing edit aborts the computation. -/
def mapConfigs (edit : String → String → Except Err String) :
    ConfDir → Except Err ConfDir
  | [] => .ok []
  | (nm, c) :: rest =>
    match edit nm c with
    | .error e => .error e
    | .ok c' =>
      match mapConfigs edit rest with
      | .error e => .error e
      | .ok rest' => .ok ((nm, c') :: rest')

/-- `update_config_mountpoint`: edit every genome config, then every
user-defined-gene config, entirely in memory. -/
def update_config_mountpoint (editG editU : String → String → Except Err String)
    (g u : ConfDir) : Except Err (ConfDir × ConfDir) :=
  match mapConfigs editG g with
  | .error e => .error e
  | .ok g' =>
    match mapConfigs editU u with
    | .error e => .error e
    | .ok u' => .ok (g', u')

/-- The write-back loop over one directory: re-validate each edited
structure and overwrite its config file in place, stopping at the first
failure. -/
def writeConfigs (wf : String → WriteOutcome) :
    ConfDir → ConfDir → ConfDir × Except Err Unit
  | target, [] => (target, .ok ())
  | target, (nm, c') :: rest =>
    match wf nm with
    | .ok => writeConfigs wf (setA target nm c') rest
    | .failValidate => (target, .error (.writeError nm))
    | .failWrite junk => (setA target nm junk, .error (.writeError nm))

/-- `shutil.copytree(backup, conf_dir, dirs_exist_ok=True)`: copy every
backed-up file's content over the current directory contents. -/
def restoreDir (backup cur : ConfDir) : ConfDir :=
  backup.foldl (fun acc nc => setA acc nc.1 nc.2) cur

/-- Restore both config directories from the in-registry backups. -/
def restoreBoth (r : Registry) : Registry :=
  { r with
    genomeConf := restoreDir (r.tmpGenomeBackup.getD []) r.genomeConf,
    userConf := restoreDir (r.tmpUserBackup.getD []) r.userConf }

/-- The `finally:` block: remove the temporary recovery directories. -/
def dropBackups (r : Registry) : Registry :=
  { r with tmpGenomeBackup := none, tmpUserBackup := none }

/-- The shared body of `add_mountpoint` / `remove_mountpoint` from the
backup step onward: copy both config directories to the `.tmp` recovery
location (`backupGOk` / `backupUOk` are the `copytree` oracles; when the
second copy fails the first backup is removed before re-raising), apply
the edits to every config file in memory, write the edited configs back
file by file (`wf` gives each write's outcome), then update the mount
table (`mountEdit`; `mountWriteOk` is the oracle for rewriting
`mounts.json`).  Any exception after the backups triggers the `except`
block, which restores both config directories from the backups and
re-raises; the `finally:` block always deletes the backups. -/
def mountpoint_transaction (editG editU : String → String → Except Err String)
    (wf : String → WriteOutcome) (backupGOk backupUOk mountWriteOk : Bool)
    (mountEdit : List (String × String) → List (String × String))
    (r : Registry) : Except Err Unit × Registry :=
  if backupGOk = false then (.error .copyError, r)
  else if backupUOk = false then (.error .copyError, { r with tmpGenomeBackup := none })
  else
    let rB := { r with tmpGenomeBackup := some r.genomeConf,
                       tmpUserBackup := some r.userConf }
    match update_config_mountpoint editG editU r.genomeConf r.userConf with
    | .error e => (.error e, dropBackups (restoreBoth rB))
    | .ok gu =>
      match writeConfigs wf r.genomeConf gu.1 with
      | (g2, .error e) =>
        (.error e, dropBackups (restoreBoth { rB with genomeConf := g2 }))
      | (g2, .ok ()) =>
        match writeConfigs wf r.userConf gu.2 with
        | (u2, .error e) =>
          (.error e,
            dropBackups (restoreBoth { rB with genomeConf := g2, userConf := u2 }))
        | (u2, .ok ()) =>
          if mountWriteOk = false then
            (.error .mountWriteError,
              dropBackups (restoreBoth { rB with genomeConf := g2, userConf := u2 }))
          else
            (.ok (), dropBackups
              { rB with
                genomeConf := g2
                userConf := u2
                mounts := mountEdit r.mounts })

/-- The duplicate-mount guard loop of `add_mountpoint`: a mount with the
same system name, or any mount already mapping the same registry path,
is rejected. -/
def check_add_guards (mounts : List (String × String))
    (registryPath system_name : String) : Except Err Unit :=
  match mounts with
  | [] => .ok ()
  | (sysname, mount_path) :: rest =>
    if system_name = sysname then .error (.valueError "system_name already used")
    else if registryPath = mount_path then
      .error (.valueError "registry-path already added")
    else check_add_guards rest registryPath system_name

/-- `add_mountpoint`: require the registry path to be reachable
(`registryIsDir`), run the duplicate-mount guards, then run the
transaction; on success the mount table gains
`system_name -> registry_path`. -/
def add_mountpoint (registryIsDir : Bool)
    (editG editU : String → String → Except Err String)
    (wf : String → WriteOutcome) (backupGOk backupUOk mountWriteOk : Bool)
    (r : Registry) (registryPath system_name : String) :
    Except Err Unit × Registry :=
  if registryIsDir = false then (.error (.fileNotFound registryPath.toList), r)
  else
    match check_add_guards r.mounts registryPath system_name with
    | .error e => (.error e, r)
    | .ok () =>
      mountpoint_transaction editG editU wf backupGOk backupUOk mountWriteOk
        (fun mounts => setA mounts system_name registryPath) r

/-- `find_active_system`: the first mount whose stored path equals the
registry path the command was issued with. -/
def find_active_system (mounts : List (String × String))
    (registryPath : String) : Option String :=
  match mounts with
  | [] => none
  | (sysname, regpath) :: rest =>
    if regpath = registryPath then some sysname
    else find_active_system rest registryPath

/-- `remove_mountpoint`: resolve the issuing system's mount name; refuse
to remove the mount the command is issued from, and refuse to remove the
registry's default mount; look up the mount to show in the confirmation
prompt (`KeyError` when it is not registered); ask for interactive
confirmation (`confirmation` is the operator's reply — anything other
than the literal `CONFIRM` returns with no changes); only then run the
backup-edit-write transaction, dropping the mount from the table on
success. -/
def remove_mountpoint (editG editU : String → String → Except Err String)
    (wf : String → WriteOutcome) (backupGOk backupUOk mountWriteOk : Bool)
    (r : Registry) (registryPath remove_system_name confirmation : String) :
    Except Err Unit × Registry :=
  match find_active_system r.mounts registryPath with
  | none => (.error (.valueError "could not find system_name"), r)
  | some active_system_name =>
    if remove_system_name = active_system_name then
      (.error (.valueError "cannot remove the active system_name"), r)
    else if r.defaultSystem = remove_system_name then
      (.error (.valueError "cannot remove default_system"), r)
    else
      match lookupA r.mounts remove_system_name with
      | none => (.error .keyError, r)
      | some _ =>
        if confirmation ≠ "CONFIRM" then (.ok (), r)
        else
          mountpoint_transaction editG editU wf backupGOk backupUOk mountWriteOk
            (fun mounts => removeA mounts remove_system_name) r

theorem mapConfigs_keys {edit : String → String → Except Err String} :
    ∀ {d d' : ConfDir}, mapConfigs edit d = .ok d' →
      d'.map Prod.fst = d.map Prod.fst := by
  intro d
  induction d with
  | nil =>
    intro d' h
    simp only [mapConfigs] at h
    cases h
    rfl
  | cons nc rest ih =>
    intro d' h
    obtain ⟨nm, c⟩ := nc
    simp only [mapConfigs] at h
    split at h
    · cases h
    · next c' hedit =>
      split at h
      · cases h
      · next rest' hrest =>
        cases h
        simp [ih hrest]

theorem writeConfigs_keys (wf : String → WriteOutcome) :
    ∀ (new target : ConfDir),
      (∀ nm, nm ∈ new.map Prod.fst → nm ∈ target.map Prod.fst) →
      (writeConfigs wf target new).1.map Prod.fst = target.map Prod.fst := by
  intro new
  induction new with
  | nil => intro target hsub; rfl
  | cons nc rest ih =>
    intro target hsub
    obtain ⟨nm, c'⟩ := nc
    simp only [writeConfigs]
    cases hwf : wf nm with
    | ok =>
      have hmem : nm ∈ target.map Prod.fst := hsub nm (by simp)
      have hkeys := setA_keys_of_mem target nm c' hmem
      rw [ih (setA target nm c')
        (fun x hx => by rw [hkeys]; exact hsub x (by simp [hx])), hkeys]
    | failValidate => rfl
    | failWrite junk =>
      have hmem : nm ∈ target.map Prod.fst := hsub nm (by simp)
      simp [setA_keys_of_mem target nm junk hmem]

theorem restoreDir_cons_skip (bs : ConfDir) :
    ∀ (nm c : String) (cs : ConfDir), nm ∉ bs.map Prod.fst →
      restoreDir bs ((nm, c) :: cs) = (nm, c) :: restoreDir bs cs := by
  induction bs with
  | nil => intro nm c cs h; rfl
  | cons kv bs' ih =>
    intro nm c cs h
    obtain ⟨k, v⟩ := kv
    simp only [List.map_cons, List.mem_cons, not_or] at h
    have hsetA : setA ((nm, c) :: cs) k v = (nm, c) :: setA cs k v := by
      simp [setA, h.1]
    show restoreDir bs' (setA ((nm, c) :: cs) k v) =
      (nm, c) :: restoreDir bs' (setA cs k v)
    rw [hsetA]
    exact ih nm c (setA cs k v) h.2

theorem restoreDir_eq_backup : ∀ (backup cur : ConfDir),
    cur.map Prod.fst = backup.map Prod.fst →
    (backup.map Prod.fst).Nodup →
    restoreDir backup cur = backup := by
  intro backup
  induction backup with
  | nil =>
    intro cur hkeys hnd
    have hc : cur = [] := by simpa using hkeys
    subst hc
    rfl
  | cons kv bs ih =>
    intro cur hkeys hnd
    obtain ⟨nm, c⟩ := kv
    cases cur with
    | nil => simp at hkeys
    | cons hd cs =>
      obtain ⟨nm0, c0⟩ := hd
      simp only [List.map_cons] at hkeys
      injection hkeys with h1 h2
      subst h1
      simp only [List.map_cons, List.nodup_cons] at hnd
      show restoreDir bs (setA ((nm0, c0) :: cs) nm0 c) = (nm0, c) :: bs
      have hset : setA ((nm0, c0) :: cs) nm0 c = (nm0, c) :: cs := by simp [setA]
      rw [hset, restoreDir_cons_skip bs nm0 c cs hnd.1, ih cs h2 hnd.2]

theorem restore_after_writes (wf : String → WriteOutcome) (orig new : ConfDir)
    (hk : new.map Prod.fst = orig.map Prod.fst)
    (hnd : (orig.map Prod.fst).Nodup) :
    restoreDir orig (writeConfigs wf orig new).1 = orig := by
  apply restoreDir_eq_backup
  · exact writeConfigs_keys wf new orig (fun nm h => by rw [← hk]; exact h)
  · exact hnd

theorem mountpoint_transaction_core (editG editU : String → String → Except Err String)
    (wf : String → WriteOutcome) (bG bU mW : Bool)
    (mountEdit : List (String × String) → List (String × String)) (r : Registry)
    (hG : (r.genomeConf.map Prod.fst).Nodup) (hU : (r.userConf.map Prod.fst).Nodup)
    (htG : r.tmpGenomeBackup = none) (htU : r.tmpUserBackup = none) :
    ((mountpoint_transaction editG editU wf bG bU mW mountEdit r).2.tmpGenomeBackup = none ∧
      (mountpoint_transaction editG editU wf bG bU mW mountEdit r).2.tmpUserBackup = none) ∧
    (∀ e, (mountpoint_transaction editG editU wf bG bU mW mountEdit r).1 = .error e →
      (mountpoint_transaction editG editU wf bG bU mW mountEdit r).2.genomeConf =
        r.genomeConf ∧
      (mountpoint_transaction editG editU wf bG bU mW mountEdit r).2.userConf =
        r.userConf) ∧
    ((mountpoint_transaction editG editU wf bG bU mW mountEdit r).1 = .ok () →
      mW = true ∧
      ∃ gu, update_config_mountpoint editG editU r.genomeConf r.userConf = .ok gu) := by
  cases bG with
  | false =>
    have hred : mountpoint_transaction editG editU wf false bU mW mountEdit r =
        (.error .copyError, r) := rfl
    rw [hred]
    exact ⟨⟨htG, htU⟩, fun e _ => ⟨rfl, rfl⟩, fun h => by cases h⟩
  | true =>
    cases bU with
    | false =>
      have hred : mountpoint_transaction editG editU wf true false mW mountEdit r =
          (.error .copyError, { r with tmpGenomeBackup := none }) := rfl
      rw [hred]
      exact ⟨⟨rfl, htU⟩, fun e _ => ⟨rfl, rfl⟩, fun h => by cases h⟩
    | true =>
      have hruu : restoreDir r.userConf r.userConf = r.userConf :=
        restoreDir_eq_backup r.userConf r.userConf rfl hU
      have hrgg : restoreDir r.genomeConf r.genomeConf = r.genomeConf :=
        restoreDir_eq_backup r.genomeConf r.genomeConf rfl hG
      cases hupd : update_config_mountpoint editG editU r.genomeConf r.userConf with
      | error e0 =>
        refine ⟨⟨?_, ?_⟩, fun e he => ⟨?_, ?_⟩, fun h => ?_⟩
        · simp [mountpoint_transaction, hupd, dropBackups]
        · simp [mountpoint_transaction, hupd, dropBackups]
        · simp [mountpoint_transaction, hupd, dropBackups, restoreBoth, hrgg]
        · simp [mountpoint_transaction, hupd, dropBackups, restoreBoth, hruu]
        · simp [mountpoint_transaction, hupd] at h
      | ok gu =>
        obtain ⟨g', u'⟩ := gu
        have hdec : mapConfigs editG r.genomeConf = .ok g' ∧
            mapConfigs editU r.userConf = .ok u' := by
          simp only [update_config_mountpoint] at hupd
          split at hupd
          · cases hupd
          · next g'' hg'' =>
            split at hupd
            · cases hupd
            · next u'' hu'' =>
              cases hupd
              exact ⟨hg'', hu''⟩
        have hkG : g'.map Prod.fst = r.genomeConf.map Prod.fst := mapConfigs_keys hdec.1
        have hkU : u'.map Prod.fst = r.userConf.map Prod.fst := mapConfigs_keys hdec.2
        rcases hwg : writeConfigs wf r.genomeConf g' with ⟨g2, wresG⟩
        have hg2 : restoreDir r.genomeConf g2 = r.genomeConf := by
          rw [show g2 = (writeConfigs wf r.genomeConf g').1 from by rw [hwg]]
          exact restore_after_writes wf r.genomeConf g' hkG hG
        cases wresG with
        | error e1 =>
          refine ⟨⟨?_, ?_⟩, fun e he => ⟨?_, ?_⟩, fun h => ?_⟩
          · simp [mountpoint_transaction, hupd, hwg, dropBackups]
          · simp [mountpoint_transaction, hupd, hwg, dropBackups]
          · simp [mountpoint_transaction, hupd, hwg, dropBackups, restoreBoth, hg2]
          · simp [mountpoint_transaction, hupd, hwg, dropBackups, restoreBoth, hruu]
          · simp [mountpoint_transaction, hupd, hwg] at h
        | ok =>
          rcases hwu : writeConfigs wf r.userConf u' with ⟨u2, wresU⟩
          have hu2 : restoreDir r.userConf u2 = r.userConf := by
            rw [show u2 = (writeConfigs wf r.userConf u').1 from by rw [hwu]]
            exact restore_after_writes wf r.userConf u' hkU hU
          cases wresU with
          | error e2 =>
            refine ⟨⟨?_, ?_⟩, fun e he => ⟨?_, ?_⟩, fun h => ?_⟩
            · simp [mountpoint_transaction, hupd, hwg, hwu, dropBackups]
            · simp [mountpoint_transaction, hupd, hwg, hwu, dropBackups]
            · simp [mountpoint_transaction, hupd, hwg, hwu, dropBackups, restoreBoth, hg2]
            · simp [mountpoint_transaction, hupd, hwg, hwu, dropBackups, restoreBoth, hu2]
            · simp [mountpoint_transaction, hupd, hwg, hwu] at h
          | ok =>
            cases mW with
            | false =>
              refine ⟨⟨?_, ?_⟩, fun e he => ⟨?_, ?_⟩, fun h => ?_⟩
              · simp [mountpoint_transaction, hupd, hwg, hwu, dropBackups]
              · simp [mountpoint_transaction, hupd, hwg, hwu, dropBackups]
              · simp [mountpoint_transaction, hupd, hwg, hwu, dropBackups, restoreBoth, hg2]
              · simp [mountpoint_transaction, hupd, hwg, hwu, dropBackups, restoreBoth, hu2]
              · simp [mountpoint_transaction, hupd, hwg, hwu] at h
            | true =>
              refine ⟨⟨?_, ?_⟩, fun e he => ?_, fun h => ⟨rfl, ⟨(g', u'), rfl⟩⟩⟩
              · simp [mountpoint_transaction, hupd, hwg, hwu, dropBackups]
              · simp [mountpoint_transaction, hupd, hwg, hwu, dropBackups]
              · exfalso
                simp [mountpoint_transaction, hupd, hwg, hwu] at he

/-- C1: the whole-registry mountpoint transaction, for both
`add_mountpoint` and `remove_mountpoint`: the temporary backup
directories are always gone on exit, success or failure; whenever the
operation raises — during the config edits, the re-validation and
rewrite of the config files, or the mount-table write — both config
directories are restored from the pre-mutation backups, so every config
file's content is byte-identical to its pre-transaction content, and the
failure is propagated to the caller; a normal return means the mount
table was written and every edit succeeded (no failure is swallowed into
a success), the only exception being `remove_mountpoint`'s declined
confirmation, which returns with the registry untouched. -/
theorem mountpoint_rollback_spec (registryIsDir : Bool)
    (editG editU : String → String → Except Err String) (wf : String → WriteOutcome)
    (bG bU mW : Bool) (r : Registry)
    (registryPath system_name remove_system_name confirmation : String)
    (hG : (r.genomeConf.map Prod.fst).Nodup) (hU : (r.userConf.map Prod.fst).Nodup)
    (htG : r.tmpGenomeBackup = none) (htU : r.tmpUserBackup = none) :
    (((add_mountpoint registryIsDir editG editU wf bG bU mW r registryPath
          system_name).2.tmpGenomeBackup = none ∧
      (add_mountpoint registryIsDir editG editU wf bG bU mW r registryPath
          system_name).2.tmpUserBackup = none) ∧
     (∀ e, (add_mountpoint registryIsDir editG editU wf bG bU mW r registryPath
          system_name).1 = .error e →
       (add_mountpoint registryIsDir editG editU wf bG bU mW r registryPath
          system_name).2.genomeConf = r.genomeConf ∧
       (add_mountpoint registryIsDir editG editU wf bG bU mW r registryPath
          system_name).2.userConf = r.userConf) ∧
     ((add_mountpoint registryIsDir editG editU wf bG bU mW r registryPath
          system_name).1 = .ok () →
       mW = true ∧
       ∃ gu, update_config_mountpoint editG editU r.genomeConf r.userConf = .ok gu)) ∧
    (((remove_mountpoint editG editU wf bG bU mW r registryPath remove_system_name
          confirmation).2.tmpGenomeBackup = none ∧
      (remove_mountpoint editG editU wf bG bU mW r registryPath remove_system_name
          confirmation).2.tmpUserBackup = none) ∧
     (∀ e, (remove_mountpoint editG editU wf bG bU mW r registryPath
          remove_system_name confirmation).1 = .error e →
       (remove_mountpoint editG editU wf bG bU mW r registryPath remove_system_name
          confirmation).2.genomeConf = r.genomeConf ∧
       (remove_mountpoint editG editU wf bG bU mW r registryPath remove_system_name
          confirmation).2.userConf = r.userConf) ∧
     ((remove_mountpoint editG editU wf bG bU mW r registryPath remove_system_name
          confirmation).1 = .ok () →
       (remove_mountpoint editG editU wf bG bU mW r registryPath remove_system_name
          confirmation).2 = r ∨
       (mW = true ∧
        ∃ gu, update_config_mountpoint editG editU r.genomeConf r.userConf = .ok gu))) := by
  have hcore := mountpoint_transaction_core editG editU wf bG bU mW
  constructor
  · -- add_mountpoint
    cases registryIsDir with
    | false =>
      have hred : add_mountpoint false editG editU wf bG bU mW r registryPath
          system_name = (.error (.fileNotFound registryPath.toList), r) := rfl
      rw [hred]
      exact ⟨⟨htG, htU⟩, fun e _ => ⟨rfl, rfl⟩, fun h => by cases h⟩
    | true =>
      cases hguard : check_add_guards r.mounts registryPath system_name with
      | error e0 =>
        have hred : add_mountpoint true editG editU wf bG bU mW r registryPath
            system_name = (.error e0, r) := by
          simp [add_mountpoint, hguard]
        rw [hred]
        exact ⟨⟨htG, htU⟩, fun e _ => ⟨rfl, rfl⟩, fun h => by cases h⟩
      | ok =>
        have hred : add_mountpoint true editG editU wf bG bU mW r registryPath
            system_name = mountpoint_transaction editG editU wf bG bU mW
              (fun mounts => setA mounts system_name registryPath) r := by
          simp [add_mountpoint, hguard]
        rw [hred]
        have h := hcore (fun mounts => setA mounts system_name registryPath) r
          hG hU htG htU
        exact ⟨h.1, h.2.1, h.2.2⟩
  · -- remove_mountpoint
    cases hact : find_active_system r.mounts registryPath with
    | none =>
      have hred : remove_mountpoint editG editU wf bG bU mW r registryPath
          remove_system_name confirmation =
          (.error (.valueError "could not find system_name"), r) := by
        simp [remove_mountpoint, hact]
      rw [hred]
      exact ⟨⟨htG, htU⟩, fun e _ => ⟨rfl, rfl⟩, fun h => by cases h⟩
    | some active =>
      by_cases h1 : remove_system_name = active
      · have hred : remove_mountpoint editG editU wf bG bU mW r registryPath
            remove_system_name confirmation =
            (.error (.valueError "cannot remove the active system_name"), r) := by
          simp [remove_mountpoint, hact, h1]
        rw [hred]
        exact ⟨⟨htG, htU⟩, fun e _ => ⟨rfl, rfl⟩, fun h => by cases h⟩
      · by_cases h2 : r.defaultSystem = remove_system_name
        · have hred : remove_mountpoint editG editU wf bG bU mW r registryPath
              remove_system_name confirmation =
              (.error (.valueError "cannot remove default_system"), r) := by
            simp [remove_mountpoint, hact, h1, h2]
          rw [hred]
          exact ⟨⟨htG, htU⟩, fun e _ => ⟨rfl, rfl⟩, fun h => by cases h⟩
        · cases hlook : lookupA r.mounts remove_system_name with
          | none =>
            have hred : remove_mountpoint editG editU wf bG bU mW r registryPath
                remove_system_name confirmation = (.error .keyError, r) := by
              simp [remove_mountpoint, hact, h1, h2, hlook]
            rw [hred]
            exact ⟨⟨htG, htU⟩, fun e _ => ⟨rfl, rfl⟩, fun h => by cases h⟩
          | some mp =>
            by_cases h3 : confirmation = "CONFIRM"
            · have hred : remove_mountpoint editG editU wf bG bU mW r registryPath
                  remove_system_name confirmation =
                  mountpoint_transaction editG editU wf bG bU mW
                    (fun mounts => removeA mounts remove_system_name) r := by
                simp [remove_mountpoint, hact, h1, h2, hlook, h3]
              rw [hred]
              have h := hcore (fun mounts => removeA mounts remove_system_name) r
                hG hU htG htU
              exact ⟨h.1, h.2.1, fun hok => Or.inr (h.2.2 hok)⟩
            · have hred : remove_mountpoint editG editU wf bG bU mW r registryPath
                  remove_system_name confirmation = (.ok (), r) := by
                simp [remove_mountpoint, hact, h1, h2, hlook, h3]
              rw [hred]
              refine ⟨⟨htG, htU⟩, fun e he => ?_, fun _ => Or.inl rfl⟩
              exact absurd he (by simp)

/-- Witness for C1: an `add_mountpoint` run whose very first config-file
write fails leaves both config directories byte-identical to their
pre-transaction contents, propagates the write failure, and leaves no
temporary backup directory behind. -/
theorem mountpoint_rollback_spec_witness :
    (add_mountpoint true (fun _ c => .ok c) (fun _ c => .ok c)
        (fun _ => .failWrite "junk") true true true
        ⟨[("001.json", "g")], [("g1.json", "u")], none, none, "hpc", [("hpc", "/r")]⟩
        "/m" "aws").1 = .error (.writeError "001.json") ∧
    (add_mountpoint true (fun _ c => .ok c) (fun _ c => .ok c)
        (fun _ => .failWrite "junk") true true true
        ⟨[("001.json", "g")], [("g1.json", "u")], none, none, "hpc", [("hpc", "/r")]⟩
        "/m" "aws").2.genomeConf = [("001.json", "g")] ∧
    (add_mountpoint true (fun _ c => .ok c) (fun _ c => .ok c)
        (fun _ => .failWrite "junk") true true true
        ⟨[("001.json", "g")], [("g1.json", "u")], none, none, "hpc", [("hpc", "/r")]⟩
        "/m" "aws").2.userConf = [("g1.json", "u")] ∧
    (add_mountpoint true (fun _ c => .ok c) (fun _ c => .ok c)
        (fun _ => .failWrite "junk") true true true
        ⟨[("001.json", "g")], [("g1.json", "u")], none, none, "hpc", [("hpc", "/r")]⟩
        "/m" "aws").2.tmpGenomeBackup = none ∧
    (add_mountpoint true (fun _ c => .ok c) (fun _ c => .ok c)
        (fun _ => .failWrite "junk") true true true
        ⟨[("001.json", "g")], [("g1.json", "u")], none, none, "hpc", [("hpc", "/r")]⟩
        "/m" "aws").2.tmpUserBackup = none := by
  have herr : (add_mountpoint true (fun _ c => .ok c) (fun _ c => .ok c)
      (fun _ => .failWrite "junk") true true true
      ⟨[("001.json", "g")], [("g1.json", "u")], none, none, "hpc", [("hpc", "/r")]⟩
      "/m" "aws").1 = .error (.writeError "001.json") := rfl
  have h := (mountpoint_rollback_spec true (fun _ c => .ok c) (fun _ c => .ok c)
    (fun _ => .failWrite "junk") true true true
    ⟨[("001.json", "g")], [("g1.json", "u")], none, none, "hpc", [("hpc", "/r")]⟩
    "/m" "aws" "x" "y" (by simp) (by simp) rfl rfl).1
  exact ⟨herr, (h.2.1 _ herr).1, (h.2.1 _ herr).2, h.1.1, h.1.2⟩

/-- C7: `remove_mountpoint` fails before touching any file when the
mount name to remove is the one the operation is issued from, or is the
registry's default mount; an operator reply other than the literal
confirmation phrase returns with no filesystem changes; and the
backup-and-edit transaction is reached exactly when both guards pass and
the confirmation is given. -/
theorem remove_mountpoint_guards (editG editU : String → String → Except Err String)
    (wf : String → WriteOutcome) (bG bU mW : Bool) (r : Registry)
    (registryPath remove_system_name confirmation : String) (active : String)
    (hactive : find_active_system r.mounts registryPath = some active) :
    ((remove_system_name = active ∨ r.defaultSystem = remove_system_name) →
      (∃ msg, (remove_mountpoint editG editU wf bG bU mW r registryPath
          remove_system_name confirmation).1 = .error (.valueError msg)) ∧
      (remove_mountpoint editG editU wf bG bU mW r registryPath remove_system_name
          confirmation).2 = r) ∧
    (remove_system_name ≠ active → r.defaultSystem ≠ remove_system_name →
      (lookupA r.mounts remove_system_name).isSome →
      confirmation ≠ "CONFIRM" →
      remove_mountpoint editG editU wf bG bU mW r registryPath remove_system_name
        confirmation = (.ok (), r)) ∧
    (remove_system_name ≠ active → r.defaultSystem ≠ remove_system_name →
      (lookupA r.mounts remove_system_name).isSome →
      confirmation = "CONFIRM" →
      remove_mountpoint editG editU wf bG bU mW r registryPath remove_system_name
        confirmation = mountpoint_transaction editG editU wf bG bU mW
          (fun mounts => removeA mounts remove_system_name) r) := by
  refine ⟨?_, ?_, ?_⟩
  · rintro (h | h)
    · refine ⟨⟨"cannot remove the active system_name", ?_⟩, ?_⟩ <;>
        simp [remove_mountpoint, hactive, h]
    · by_cases h1 : remove_system_name = active
      · refine ⟨⟨"cannot remove the active system_name", ?_⟩, ?_⟩ <;>
          simp [remove_mountpoint, hactive, h1]
      · refine ⟨⟨"cannot remove default_system", ?_⟩, ?_⟩ <;>
          simp [remove_mountpoint, hactive, h1, h]
  · intro h1 h2 h3 h4
    obtain ⟨mp, hmp⟩ := Option.isSome_iff_exists.mp h3
    simp [remove_mountpoint, hactive, h1, h2, hmp, h4]
  · intro h1 h2 h3 h4
    obtain ⟨mp, hmp⟩ := Option.isSome_iff_exists.mp h3
    simp [remove_mountpoint, hactive, h1, h2, hmp, h4]

/-- Witness for C7: removing the default mount `hpc`, issued from the
`aws` mount, fails with a `ValueError` and leaves the whole registry
state untouched. -/
theorem remove_mountpoint_guards_witness :
    (∃ msg, (remove_mountpoint (fun _ c => .ok c) (fun _ c => .ok c)
        (fun _ => WriteOutcome.ok) true true true
        ⟨[("001.json", "g")], [("g1.json", "u")], none, none, "hpc",
          [("hpc", "/r"), ("aws", "/m")]⟩
        "/m" "hpc" "CONFIRM").1 = .error (.valueError msg)) ∧
    (remove_mountpoint (fun _ c => .ok c) (fun _ c => .ok c)
        (fun _ => WriteOutcome.ok) true true true
        ⟨[("001.json", "g")], [("g1.json", "u")], none, none, "hpc",
          [("hpc", "/r"), ("aws", "/m")]⟩
        "/m" "hpc" "CONFIRM").2 =
      ⟨[("001.json", "g")], [("g1.json", "u")], none, none, "hpc",
        [("hpc", "/r"), ("aws", "/m")]⟩ :=
  (remove_mountpoint_guards (fun _ c => .ok c) (fun _ c => .ok c)
    (fun _ => WriteOutcome.ok) true true true
    ⟨[("001.json", "g")], [("g1.json", "u")], none, none, "hpc",
      [("hpc", "/r"), ("aws", "/m")]⟩
    "/m" "hpc" "CONFIRM" "aws" rfl).1 (Or.inr rfl)

end GenomeManager
